import Mathlib

/-!
Shallow embedding of the PETSCII conversion engine of the
`forbidden-bands` crate (file `src/petscii.rs`).

Bytes and Unicode scalar values are modelled as `Nat`.  The nine JSON
mapping tables of `PetsciiConfig` are modelled as partial functions
`Nat → Option _`: a well-typed table entry corresponds to `some`, and a
missing key (or an entry whose deserialization fails, which the source
treats exactly like a missing key via `.ok()` / `match Err => return
None`) corresponds to `none`.  Rust panics are modelled as `Except`
errors naming the panic site.
-/

namespace ForbiddenBands

/-- A Commodore screen code value and the screen set it is in
(`struct ScreenCodeValue` in `petscii.rs`). -/
structure ScreenCodeValue where
  set : Nat
  value : Nat
deriving DecidableEq, Repr

/-- The PETSCII code along with its attribute bits
(`struct PetsciiCodeValue` in `petscii.rs`).  Bit 0 of `attributes` is
the `Shifted` flag; `EnumSet::from_repr` panics when any other bit is
set. -/
structure PetsciiCodeValue where
  attributes : Nat
  value : Nat
deriving DecidableEq, Repr

/-- The nine mapping tables of `struct PetsciiConfig` in `petscii.rs`
(the `version` string is irrelevant to the conversion algorithms and
omitted). -/
structure PetsciiConfig where
  c64_petscii_shifted_codes_to_screen_codes : Nat → Option ScreenCodeValue
  c64_petscii_unshifted_codes_to_screen_codes : Nat → Option ScreenCodeValue
  c64_screen_codes_set_1_to_unicode_codes : Nat → Option Nat
  c64_screen_codes_set_2_to_unicode_codes : Nat → Option Nat
  c64_screen_codes_set_3_to_unicode_codes : Nat → Option Nat
  unicode_codes_to_c64_screen_codes : Nat → Option ScreenCodeValue
  c64_screen_codes_set_1_to_petscii_codes : Nat → Option PetsciiCodeValue
  c64_screen_codes_set_2_to_petscii_codes : Nat → Option PetsciiCodeValue
  c64_screen_codes_set_3_to_petscii_codes : Nat → Option PetsciiCodeValue

/-- The fixed-capacity PETSCII string (`struct PetsciiString<'a, L>` in
`petscii.rs`).  The `[u8; L]` array is modelled as a list whose length
plays the role of the const generic `L`; `character_map` models the
optional borrowed `SystemConfig` reference through its only used
component, the `PetsciiConfig` table set. -/
structure PetsciiString where
  len : Nat
  data : List Nat
  character_map : Option PetsciiConfig
  strip_shifted_space : Bool

/-- Panic sites reachable from `String::from(&PetsciiString)`. -/
inductive DecodeAbort where
  /-- The `Iterator` impl indexes `data[index]` for `index < len`:
  when `len` exceeds the array size this is an out-of-bounds panic. -/
  | lengthOutOfRange
  /-- Panic "Should not have a screen code greater than 127 before
  applying reverse video transform". -/
  | screenCodeTooLarge
  /-- Panic "Invalid screen code set". -/
  | invalidScreenSet
  /-- Panic from `char::from_u32(d).unwrap()` when `d` is a surrogate
  or exceeds `0x10FFFF`. -/
  | invalidChar
deriving DecidableEq, Repr

/-- The per-call conversion state of the decoder: the `shifted` local
and the `Reversed` member of the `attributes` EnumSet. -/
structure DecodeState where
  shifted : Bool
  reversed : Bool
deriving DecidableEq, Repr

/-- Validity test of `char::from_u32`: true exactly when the value is a
Unicode scalar value (not a surrogate, at most `0x10FFFF`). -/
def isValidCharNat (n : Nat) : Bool :=
  n < 0xD800 || (0xDFFF < n && n < 0x110000)

/-- The duplicate-range normalization in `String::from`
(`match c { 0..=191 => c, 192..=223 => c - 96, 224..=254 => c - 64,
255 => 126 }`). -/
def normalizeDuplicate (c : Nat) : Nat :=
  if c ≤ 191 then c
  else if c ≤ 223 then c - 96
  else if c ≤ 254 then c - 64
  else 126

/-- One step of the `filter_map` closure in
`String::from(&PetsciiString)`: given the current conversion state and
one byte, either abort (a panic in the source), or return the new state
together with `none` (control byte consumed) or `some u` (a Unicode
scalar value emitted). -/
def decodeStep (cm : Option PetsciiConfig) (st : DecodeState) (c : Nat) :
    Except DecodeAbort (DecodeState × Option Nat) :=
  if c = 0x0E then .ok ({ st with shifted := true }, none)
  else if c = 0x12 then .ok ({ st with reversed := true }, none)
  else if c = 0x8E then .ok ({ st with shifted := false }, none)
  else if c = 0x92 then .ok ({ st with reversed := false }, none)
  else
    match cm with
    | none =>
        if isValidCharNat c then .ok (st, some c) else .error .invalidChar
    | some config =>
        let cN := normalizeDuplicate c
        let petsciiToScreen :=
          if !st.shifted then config.c64_petscii_unshifted_codes_to_screen_codes
          else config.c64_petscii_shifted_codes_to_screen_codes
        match petsciiToScreen cN with
        | none => .ok (st, none)
        | some screenCode =>
            if screenCode.value > 127 then .error .screenCodeTooLarge
            else
              let screenCodeValue :=
                if st.reversed then screenCode.value + 128 else screenCode.value
              let screenToUnicode :=
                if screenCode.set = 1 then
                  some config.c64_screen_codes_set_1_to_unicode_codes
                else if screenCode.set = 2 then
                  some config.c64_screen_codes_set_2_to_unicode_codes
                else if screenCode.set = 3 then
                  some config.c64_screen_codes_set_3_to_unicode_codes
                else none
              match screenToUnicode with
              | none => .error .invalidScreenSet
              | some table =>
                  let d :=
                    match table screenCodeValue with
                    | some v => v % 4294967296
                    | none => cN
                  if isValidCharNat d then .ok (st, some d)
                  else .error .invalidChar

/-- Threading `decodeStep` through a byte list, collecting the emitted
scalar values (the `filter_map ... collect` pipeline of
`String::from`). -/
def decodeLoop (cm : Option PetsciiConfig) (st : DecodeState) :
    List Nat → Except DecodeAbort (List Nat)
  | [] => .ok []
  | c :: rest =>
    match decodeStep cm st c with
    | .error e => .error e
    | .ok (st2, out) =>
      match decodeLoop cm st2 rest with
      | .error e => .error e
      | .ok tail => .ok (out.elim tail (fun u => u :: tail))

/-- The byte sequence produced by iterating a `PetsciiString`
(`impl Iterator for IntoIter`): `len` bytes of `data`, or an
out-of-bounds panic when `len` exceeds the array size. -/
def intoIterBytes (s : PetsciiString) : Option (List Nat) :=
  if s.len ≤ s.data.length then some (s.data.take s.len) else none

/-- Decoding a `PetsciiString` to the list of Unicode scalar values of
the resulting `String` (`impl From<&PetsciiString> for String`): iterate
the logical bytes, drop `0xA0` when `strip_shifted_space` is set, then
run the conversion state machine from the (unshifted, normal) state. -/
def stringFrom (s : PetsciiString) : Except DecodeAbort (List Nat) :=
  match intoIterBytes s with
  | none => .error .lengthOutOfRange
  | some bytes =>
      decodeLoop s.character_map ⟨false, false⟩
        (bytes.filter (fun c => !s.strip_shifted_space || c != 0xA0))

/-- The `filter_map` stage of `unicode_to_petscii_bytes`: look a scalar
value up in `unicode_codes_to_c64_screen_codes`, then route by screen
set to the matching screen-codes-to-petscii table; any miss (or an
unknown set) yields `none`, dropping the character. -/
def charToPetscii (config : PetsciiConfig) (c : Nat) : Option PetsciiCodeValue :=
  match config.unicode_codes_to_c64_screen_codes c with
  | none => none
  | some screenCode =>
      if screenCode.set = 1 then
        config.c64_screen_codes_set_1_to_petscii_codes screenCode.value
      else if screenCode.set = 2 then
        config.c64_screen_codes_set_2_to_petscii_codes screenCode.value
      else if screenCode.set = 3 then
        config.c64_screen_codes_set_3_to_petscii_codes screenCode.value
      else none

/-- Panic sites reachable from `unicode_to_petscii_bytes`. -/
inductive EncodeAbort where
  /-- `EnumSet::from_repr(petscii_code.attributes)` panics when a bit
  other than bit 0 (`Shifted`) is set. -/
  | invalidAttributes
deriving DecidableEq, Repr

/-- The fused `filter_map` / `flat_map` pipeline of
`unicode_to_petscii_bytes`: process the scalar values left to right
carrying the `shifted` flag, emitting a shift-in `0x0E` or shift-out
`0x8E` byte on a state change followed by the PETSCII code value.
Returns the emitted bytes and the final `shifted` flag. -/
def encodeLoop (config : PetsciiConfig) (shifted : Bool) :
    List Nat → Except EncodeAbort (List Nat × Bool)
  | [] => .ok ([], shifted)
  | c :: rest =>
    match charToPetscii config c with
    | none => encodeLoop config shifted rest
    | some petsciiCode =>
      if petsciiCode.attributes ≥ 2 then .error .invalidAttributes
      else
        let attrShifted := petsciiCode.attributes = 1
        let step :
            List Nat × Bool :=
          if attrShifted ∧ !shifted then ([0x0E], true)
          else if ¬ attrShifted ∧ shifted then ([0x8E], false)
          else ([], shifted)
        match encodeLoop config step.2 rest with
        | .error e => .error e
        | .ok (tail, shiftedF) =>
            .ok (step.1 ++ petsciiCode.value :: tail, shiftedF)

/-- `fn unicode_to_petscii_bytes(s: &str) -> Vec<u8>`: run the encode
pipeline from the unshifted state and, if the final state is still
shifted, append a trailing shift-out `0x8E`. -/
def unicode_to_petscii_bytes (config : PetsciiConfig) (s : List Nat) :
    Except EncodeAbort (List Nat) :=
  match encodeLoop config false s with
  | .error e => .error e
  | .ok (bytes, shifted) => .ok (bytes ++ if shifted then [0x8E] else [])

/-- Panic sites reachable from the `PetsciiString` constructors. -/
inductive BuildAbort where
  /-- Panic "u8 slice is too large" / "u8 vector is too large". -/
  | oversize
  /-- Panic from the slice index `&s[..L]` in `From<&[u8]>` when the
  source slice is shorter than `L`. -/
  | sliceIndexOutOfRange
  /-- Panic propagated from `unicode_to_petscii_bytes`. -/
  | invalidAttributes
deriving DecidableEq, Repr

/-- `impl From<&[u8]> for PetsciiString<L>`: panic when the source is
longer than `L`; then `bytes[..L].copy_from_slice(&s[..L])` panics when
the source is shorter than `L`; otherwise the buffer holds the `L`
source bytes with logical length `L`. -/
def petsciiStringFromByteSlice (L : Nat) (s : List Nat) :
    Except BuildAbort PetsciiString :=
  if s.length > L then .error .oversize
  else if s.length < L then .error .sliceIndexOutOfRange
  else .ok { len := L, data := s, character_map := none,
             strip_shifted_space := false }

/-- `PetsciiString::from_byte_slice_strip_shifted_space`: panic when the
source is longer than `L`; otherwise copy the source into the
zero-initialized array and set the logical length to `L` (not to the
source length) with `strip_shifted_space` enabled. -/
def from_byte_slice_strip_shifted_space (L : Nat) (s : List Nat) :
    Except BuildAbort PetsciiString :=
  if s.length > L then .error .oversize
  else .ok { len := L, data := s ++ List.replicate (L - s.length) 0,
             character_map := none, strip_shifted_space := true }

/-- `impl From<&str> for PetsciiString<L>`: encode the string, panic
when the encoded byte vector is longer than `L`, otherwise copy it into
the zero-initialized array with logical length equal to the encoded
length. -/
def petsciiStringFromStr (L : Nat) (config : PetsciiConfig) (s : List Nat) :
    Except BuildAbort PetsciiString :=
  match unicode_to_petscii_bytes config s with
  | .error _ => .error .invalidAttributes
  | .ok bytes =>
    if bytes.length > L then .error .oversize
    else .ok { len := bytes.length,
               data := bytes ++ List.replicate (L - bytes.length) 0,
               character_map := none, strip_shifted_space := false }

/-- The shift-state evolution the decoder's state machine undergoes
while reading a byte list: `0x0E` sets the shifted flag, `0x8E` clears
it, every other byte leaves it unchanged (the `shifted` updates of
`decodeStep`). -/
def trackShift (shifted : Bool) : List Nat → Bool
  | [] => shifted
  | c :: rest =>
      trackShift (if c = 0x0E then true else if c = 0x8E then false else shifted)
        rest

/-- A table set with all nine mappings empty. -/
def emptyConfig : PetsciiConfig where
  c64_petscii_shifted_codes_to_screen_codes := fun _ => none
  c64_petscii_unshifted_codes_to_screen_codes := fun _ => none
  c64_screen_codes_set_1_to_unicode_codes := fun _ => none
  c64_screen_codes_set_2_to_unicode_codes := fun _ => none
  c64_screen_codes_set_3_to_unicode_codes := fun _ => none
  unicode_codes_to_c64_screen_codes := fun _ => none
  c64_screen_codes_set_1_to_petscii_codes := fun _ => none
  c64_screen_codes_set_2_to_petscii_codes := fun _ => none
  c64_screen_codes_set_3_to_petscii_codes := fun _ => none

/-- A small concrete table set used to evaluate the theorems: unshifted
PETSCII 65 maps to screen code 1 of set 1, which maps to Unicode 65;
Unicode 65 encodes through set 1 to unshifted PETSCII 65, and Unicode 97
encodes through set 2 to shifted PETSCII 65. -/
def testConfig : PetsciiConfig :=
  { emptyConfig with
    c64_petscii_unshifted_codes_to_screen_codes :=
      fun c => if c = 65 then some ⟨1, 1⟩ else none
    c64_screen_codes_set_1_to_unicode_codes :=
      fun v => if v = 1 then some 65 else none
    unicode_codes_to_c64_screen_codes :=
      fun c => if c = 65 then some ⟨1, 5⟩
               else if c = 97 then some ⟨2, 1⟩ else none
    c64_screen_codes_set_1_to_petscii_codes :=
      fun v => if v = 5 then some ⟨0, 65⟩ else none
    c64_screen_codes_set_2_to_petscii_codes :=
      fun v => if v = 1 then some ⟨1, 65⟩ else none }

/-- Identity decoding drops nothing and keeps every byte below 256 that
is not one of the four control bytes, independently of the state. -/
lemma decodeLoop_no_config (st : DecodeState) (bytes : List Nat)
    (h : ∀ b ∈ bytes, b < 256) :
    decodeLoop none st bytes =
      .ok (bytes.filter fun b => !(b == 14 || b == 18 || b == 142 || b == 146)) := by
  induction bytes generalizing st with
  | nil => rfl
  | cons c rest ih =>
    have hc : c < 256 := h c (by simp)
    have hrest : ∀ b ∈ rest, b < 256 := fun b hb => h b (by simp [hb])
    have hval : isValidCharNat c = true := by
      unfold isValidCharNat
      simp only [Bool.or_eq_true, decide_eq_true_eq]
      omega
    by_cases h14 : c = 14
    · subst h14
      simp [decodeLoop, decodeStep, ih _ hrest]
    · by_cases h18 : c = 18
      · subst h18
        simp [decodeLoop, decodeStep, ih _ hrest]
      · by_cases h142 : c = 142
        · subst h142
          simp [decodeLoop, decodeStep, ih _ hrest]
        · by_cases h146 : c = 146
          · subst h146
            simp [decodeLoop, decodeStep, ih _ hrest]
          · simp [decodeLoop, decodeStep, h14, h18, h142, h146, hval,
              ih _ hrest, Option.elim]

/-- C1 counterexample: with no Table Set and pad-stripping disabled,
decoding the single control byte `0x0E` yields the empty string, not
the identity scalar 14, so decoding is not the pure identity map on all
of 0-255. -/
theorem c1_counterexample :
    stringFrom ⟨1, [14], none, false⟩ = .ok [] ∧ ([] : List Nat) ≠ [14] :=
  ⟨rfl, by decide⟩

/-- C1 (amended): decoding a buffer with no Table Set and pad-stripping
disabled maps every byte 0-255 to the identity Unicode scalar, except
the four control bytes `0x0E`, `0x12`, `0x8E`, `0x92`, which are
consumed by the state machine and emit no character: the output is the
input with exactly those four byte values removed. -/
theorem c1_identity_amended (bytes : List Nat) (h : ∀ b ∈ bytes, b < 256) :
    stringFrom ⟨bytes.length, bytes, none, false⟩ =
      .ok (bytes.filter fun b => !(b == 14 || b == 18 || b == 142 || b == 146)) := by
  unfold stringFrom intoIterBytes
  simp [decodeLoop_no_config _ _ h]

/-- C1 witness: the amended identity theorem evaluated on the concrete
buffer `[0x0E, 0x41, 0x8E, 0xFF]`. -/
theorem c1_identity_amended_witness :
    (∀ b ∈ [14, 65, 142, 255], b < 256) ∧
      stringFrom ⟨4, [14, 65, 142, 255], none, false⟩ = .ok [65, 255] := by
  refine ⟨by decide, ?_⟩
  have h := c1_identity_amended [14, 65, 142, 255] (by decide)
  simpa using h

/-- C2 counterexample: decoding byte `0x41` with a Table Set whose
petscii-to-screen tables do not contain code `0x41` yields the empty
string — the character is dropped, not emitted as the identity scalar
`0x41`. -/
theorem c2_counterexample :
    stringFrom ⟨1, [65], some emptyConfig, false⟩ = .ok [] ∧
      ([] : List Nat) ≠ [65] :=
  ⟨rfl, by decide⟩

/-- C2 (amended): during decode with a Table Set, when the normalized
code is absent from the selected petscii-to-screen table, the decoder
silently drops the character — no scalar is emitted, the state is
unchanged, and decoding continues with the remaining bytes; the miss is
never an error. -/
theorem c2_drop_on_miss (config : PetsciiConfig) (st : DecodeState)
    (c : Nat) (bs : List Nat)
    (h14 : c ≠ 14) (h18 : c ≠ 18) (h142 : c ≠ 142) (h146 : c ≠ 146)
    (hmiss : (if !st.shifted then config.c64_petscii_unshifted_codes_to_screen_codes
              else config.c64_petscii_shifted_codes_to_screen_codes)
        (normalizeDuplicate c) = none) :
    decodeLoop (some config) st (c :: bs) = decodeLoop (some config) st bs := by
  have hmiss2 : (if st.shifted = false then config.c64_petscii_unshifted_codes_to_screen_codes
      else config.c64_petscii_shifted_codes_to_screen_codes)
        (normalizeDuplicate c) = none := by
    cases hs : st.shifted <;> simpa [hs] using hmiss
  have hstep : decodeStep (some config) st c = .ok (st, none) := by
    unfold decodeStep
    simp only [if_neg h14, if_neg h18, if_neg h142, if_neg h146,
      Bool.not_eq_true']
    rw [hmiss2]
  simp only [decodeLoop, hstep]
  cases h : decodeLoop (some config) st bs <;> simp [Option.elim]

/-- C2 witness: the drop-on-miss theorem evaluated at byte `0x41` with
the empty table set, unshifted normal state, empty tail. -/
theorem c2_drop_on_miss_witness :
    decodeLoop (some emptyConfig) ⟨false, false⟩ [65] =
      decodeLoop (some emptyConfig) ⟨false, false⟩ [] :=
  c2_drop_on_miss emptyConfig ⟨false, false⟩ 65 []
    (by decide) (by decide) (by decide) (by decide) rfl

/-- C3 counterexample: constructing a capacity-2 buffer from the 1-byte
slice `[0x41]` with the pad-stripping constructor sets the logical
length to 2, so iteration yields `[0x41, 0]` — the zero-filled tail is
not excluded. -/
theorem c3_counterexample :
    from_byte_slice_strip_shifted_space 2 [65] = .ok ⟨2, [65, 0], none, true⟩ ∧
      intoIterBytes ⟨2, [65, 0], none, true⟩ = some [65, 0] ∧
      ([65, 0] : List Nat) ≠ [65] :=
  ⟨rfl, rfl, by decide⟩

/-- C3 (amended): for every source slice of length n ≤ L, the
pad-stripping constructor zero-fills the unused capacity but sets the
logical length to L, so iterating the constructed buffer yields the n
source bytes followed by L - n zero bytes, not the source bytes
alone. -/
theorem c3_strip_constructor_iteration (L : Nat) (s : List Nat)
    (h : s.length ≤ L) :
    ∃ ps, from_byte_slice_strip_shifted_space L s = .ok ps ∧ ps.len = L ∧
      intoIterBytes ps = some (s ++ List.replicate (L - s.length) 0) := by
  refine ⟨⟨L, s ++ List.replicate (L - s.length) 0, none, true⟩, ?_, rfl, ?_⟩
  · unfold from_byte_slice_strip_shifted_space
    rw [if_neg (by omega)]
  · have hlen : (s ++ List.replicate (L - s.length) 0).length = L := by
      simp; omega
    unfold intoIterBytes
    simp only [hlen, le_refl, if_pos]
    rw [List.take_of_length_le (le_of_eq hlen)]

/-- C3 witness: the amended iteration theorem evaluated at capacity 3
and source `[7, 8]`. -/
theorem c3_strip_constructor_iteration_witness :
    [7, 8].length ≤ 3 ∧
      ∃ ps, from_byte_slice_strip_shifted_space 3 [7, 8] = .ok ps ∧
        ps.len = 3 ∧ intoIterBytes ps = some ([7, 8] ++ List.replicate 1 0) :=
  ⟨by decide, c3_strip_constructor_iteration 3 [7, 8] (by decide)⟩

/-- C9: the `From<&[u8]>` constructor succeeds exactly when the slice
length equals the capacity L: longer slices abort with the oversize
panic, strictly shorter slices abort with the slice-index panic from
`&s[..L]`, and on success the logical length is L and the data is the
source slice. -/
theorem c9_from_byte_slice_exact (L : Nat) (s : List Nat) :
    (s.length > L → petsciiStringFromByteSlice L s = .error .oversize) ∧
    (s.length < L → petsciiStringFromByteSlice L s = .error .sliceIndexOutOfRange) ∧
    (s.length = L → petsciiStringFromByteSlice L s = .ok ⟨L, s, none, false⟩) := by
  refine ⟨fun h => ?_, fun h => ?_, fun h => ?_⟩ <;> unfold petsciiStringFromByteSlice
  · rw [if_pos h]
  · rw [if_neg (by omega), if_pos h]
  · rw [if_neg (by omega), if_neg (by omega)]

/-- C9 witness: the exactness theorem evaluated at capacity 2 on a
3-byte slice, a 1-byte slice and a 2-byte slice. -/
theorem c9_from_byte_slice_exact_witness :
    petsciiStringFromByteSlice 2 [1, 2, 3] = .error .oversize ∧
    petsciiStringFromByteSlice 2 [1] = .error .sliceIndexOutOfRange ∧
    petsciiStringFromByteSlice 2 [1, 2] = .ok ⟨2, [1, 2], none, false⟩ :=
  ⟨(c9_from_byte_slice_exact 2 [1, 2, 3]).1 (by decide),
   (c9_from_byte_slice_exact 2 [1]).2.1 (by decide),
   (c9_from_byte_slice_exact 2 [1, 2]).2.2 (by decide)⟩

/-- C6: constructing a buffer of capacity L from a byte slice longer
than L, or from a string whose encoded byte sequence is longer than L,
aborts with the oversize panic and produces no buffer value. -/
theorem c6_oversize (L1 L2 : Nat) (s : List Nat) (config : PetsciiConfig)
    (str bytes : List Nat)
    (h1 : s.length > L1)
    (h2 : unicode_to_petscii_bytes config str = .ok bytes)
    (h3 : bytes.length > L2) :
    petsciiStringFromByteSlice L1 s = .error .oversize ∧
      petsciiStringFromStr L2 config str = .error .oversize := by
  constructor
  · unfold petsciiStringFromByteSlice
    rw [if_pos h1]
  · unfold petsciiStringFromStr
    rw [h2]
    simp only [if_pos h3]

/-- C6 witness: the oversize theorem evaluated at capacity 3 on the
4-byte slice `[0,0,0,0]` and on a 4-character string that encodes to 4
bytes under the test table set. -/
theorem c6_oversize_witness :
    petsciiStringFromByteSlice 3 [0, 0, 0, 0] = .error .oversize ∧
      petsciiStringFromStr 3 testConfig [65, 65, 65, 65] = .error .oversize :=
  c6_oversize 3 3 [0, 0, 0, 0] testConfig [65, 65, 65, 65] [65, 65, 65, 65]
    (by decide) rfl (by decide)

/-- Two non-control bytes with the same normalized code are processed
identically by the decode step: everything after the control-code
interception depends only on `normalizeDuplicate c`. -/
lemma decodeStep_eq_of_norm_eq (config : PetsciiConfig) (st : DecodeState)
    (b b2 : Nat)
    (hb : b ≠ 14 ∧ b ≠ 18 ∧ b ≠ 142 ∧ b ≠ 146)
    (hb2 : b2 ≠ 14 ∧ b2 ≠ 18 ∧ b2 ≠ 142 ∧ b2 ≠ 146)
    (hn : normalizeDuplicate b = normalizeDuplicate b2) :
    decodeStep (some config) st b = decodeStep (some config) st b2 := by
  unfold decodeStep
  simp only [if_neg hb.1, if_neg hb.2.1, if_neg hb.2.2.1, if_neg hb.2.2.2,
    if_neg hb2.1, if_neg hb2.2.1, if_neg hb2.2.2.1, if_neg hb2.2.2.2, hn]

/-- Replacing the head byte by one the decode step treats identically
leaves the whole decode unchanged. -/
lemma decodeLoop_congr_head (cm : Option PetsciiConfig) (st : DecodeState)
    (b b2 : Nat) (bs : List Nat)
    (h : decodeStep cm st b = decodeStep cm st b2) :
    decodeLoop cm st (b :: bs) = decodeLoop cm st (b2 :: bs) := by
  simp only [decodeLoop, h]

/-- C7: decoding with a Table Set is invariant under the
duplicate-range aliases, applied before table lookup: a byte in 192-223
decodes exactly as that byte minus 96, a byte in 224-254 exactly as
that byte minus 64, byte 255 exactly as byte 126, and bytes 0-191 are
normalized to themselves. -/
theorem c7_duplicate_normalization (config : PetsciiConfig)
    (st : DecodeState) (b : Nat) (bs : List Nat) :
    (192 ≤ b → b ≤ 223 →
      decodeLoop (some config) st (b :: bs) =
        decodeLoop (some config) st ((b - 96) :: bs)) ∧
    (224 ≤ b → b ≤ 254 →
      decodeLoop (some config) st (b :: bs) =
        decodeLoop (some config) st ((b - 64) :: bs)) ∧
    (b = 255 →
      decodeLoop (some config) st (b :: bs) =
        decodeLoop (some config) st (126 :: bs)) ∧
    (b ≤ 191 → normalizeDuplicate b = b) := by
  refine ⟨fun h1 h2 => ?_, fun h1 h2 => ?_, fun h1 => ?_, fun h1 => ?_⟩
  · exact decodeLoop_congr_head _ _ _ _ _
      (decodeStep_eq_of_norm_eq config st b (b - 96)
        (by omega) (by omega)
        (by unfold normalizeDuplicate; split_ifs <;> omega))
  · exact decodeLoop_congr_head _ _ _ _ _
      (decodeStep_eq_of_norm_eq config st b (b - 64)
        (by omega) (by omega)
        (by unfold normalizeDuplicate; split_ifs <;> omega))
  · exact decodeLoop_congr_head _ _ _ _ _
      (decodeStep_eq_of_norm_eq config st b 126
        (by omega) (by omega)
        (by unfold normalizeDuplicate; split_ifs <;> omega))
  · unfold normalizeDuplicate
    rw [if_pos h1]

/-- C7 witness: decoding byte `0xC1` equals decoding byte `0x61` under
the test table set, by the 192-223 alias rule at b = 193. -/
theorem c7_duplicate_normalization_witness :
    decodeLoop (some testConfig) ⟨false, false⟩ [193] =
      decodeLoop (some testConfig) ⟨false, false⟩ [97] := by
  have h := (c7_duplicate_normalization testConfig ⟨false, false⟩ 193 []).1
    (by omega) (by omega)
  simpa using h

/-- C8: during encode, a character whose Unicode scalar is absent from
`unicode_codes_to_c64_screen_codes`, or whose screen code is absent
from the screen-set-to-petscii table its set routes to, is silently
elided: no byte is emitted, the shift state is unchanged, and encoding
continues with the remaining characters — never an error. -/
theorem c8_encode_elides (config : PetsciiConfig) (shifted : Bool)
    (c : Nat) (bs : List Nat)
    (h : config.unicode_codes_to_c64_screen_codes c = none ∨
      ∃ sc, config.unicode_codes_to_c64_screen_codes c = some sc ∧
        ((sc.set = 1 ∧ config.c64_screen_codes_set_1_to_petscii_codes sc.value = none) ∨
         (sc.set = 2 ∧ config.c64_screen_codes_set_2_to_petscii_codes sc.value = none) ∨
         (sc.set = 3 ∧ config.c64_screen_codes_set_3_to_petscii_codes sc.value = none))) :
    encodeLoop config shifted (c :: bs) = encodeLoop config shifted bs := by
  have hmiss : charToPetscii config c = none := by
    unfold charToPetscii
    rcases h with h | ⟨sc, hsc, hcase⟩
    · rw [h]
    · rw [hsc]
      rcases hcase with ⟨h1, h2⟩ | ⟨h1, h2⟩ | ⟨h1, h2⟩ <;> simp [h1, h2]
  simp only [encodeLoop, hmiss]

/-- C8 witness: the elision theorem evaluated on scalar 65 with the
empty table set, starting unshifted. -/
theorem c8_encode_elides_witness :
    emptyConfig.unicode_codes_to_c64_screen_codes 65 = none ∧
      encodeLoop emptyConfig false [65] = encodeLoop emptyConfig false [] :=
  ⟨rfl, c8_encode_elides emptyConfig false 65 [] (Or.inl rfl)⟩

/-- The encode pipeline emits at most two bytes per input character
(one optional shift-control byte plus the PETSCII code). -/
lemma encodeLoop_length (config : PetsciiConfig) (s : List Nat) :
    ∀ (sh : Bool) (bytes : List Nat) (shF : Bool),
      encodeLoop config sh s = .ok (bytes, shF) →
        bytes.length ≤ 2 * s.length := by
  induction s with
  | nil =>
    intro sh bytes shF h
    simp only [encodeLoop, Except.ok.injEq, Prod.mk.injEq] at h
    simp [← h.1]
  | cons c rest ih =>
    intro sh bytes shF h
    simp only [encodeLoop] at h
    split at h
    · have := ih _ _ _ h
      simp only [List.length_cons]
      omega
    · split at h
      · exact absurd h (by simp)
      · split at h
        · exact absurd h (by simp)
        · rename_i p hcp hneg tail shF2 henc
          simp only [Except.ok.injEq, Prod.mk.injEq] at h
          obtain ⟨hb, hs⟩ := h
          subst hb
          have htail := ih _ _ _ henc
          simp only [List.length_append, List.length_cons]
          split_ifs <;> simp <;> omega

/-- C10: for every input string of n characters that the encoder
processes without aborting, the emitted byte sequence has length at
most 2n + 1: each character contributes at most one shift-control byte
and one code byte, plus at most one trailing `0x8E`. -/
theorem c10_length_bound (config : PetsciiConfig) (s bytes : List Nat)
    (h : unicode_to_petscii_bytes config s = .ok bytes) :
    bytes.length ≤ 2 * s.length + 1 := by
  unfold unicode_to_petscii_bytes at h
  split at h
  · exact absurd h (by simp)
  · rename_i core shifted henc
    simp only [Except.ok.injEq] at h
    subst h
    have hcore := encodeLoop_length config s _ _ _ henc
    cases shifted <;> simp <;> omega

/-- C10 witness: encoding the one-character string `"a"` under the test
table set emits `[0x0E, 0x41, 0x8E]`, of length 3 = 2 * 1 + 1. -/
theorem c10_length_bound_witness :
    unicode_to_petscii_bytes testConfig [97] = .ok [14, 65, 142] ∧
      ([14, 65, 142] : List Nat).length ≤ 2 * [97].length + 1 :=
  ⟨rfl, c10_length_bound testConfig [97] [14, 65, 142] rfl⟩

/-- Tracking the shift state over a concatenation composes. -/
lemma trackShift_append (sh : Bool) (xs ys : List Nat) :
    trackShift sh (xs ++ ys) = trackShift (trackShift sh xs) ys := by
  induction xs generalizing sh with
  | nil => rfl
  | cons c rest ih =>
    simp only [List.cons_append, trackShift, List.append_eq, ih]

/-- Provided no table entry emits a PETSCII code equal to the shift
controls `0x0E` or `0x8E`, the shift state a reader tracks over the
emitted bytes coincides with the encoder's internal `shifted` flag. -/
lemma encodeLoop_trackShift (config : PetsciiConfig)
    (H : ∀ c p, charToPetscii config c = some p →
      p.value ≠ 14 ∧ p.value ≠ 142)
    (s : List Nat) :
    ∀ (sh : Bool) (bytes : List Nat) (shF : Bool),
      encodeLoop config sh s = .ok (bytes, shF) →
        trackShift sh bytes = shF := by
  induction s with
  | nil =>
    intro sh bytes shF h
    simp only [encodeLoop, Except.ok.injEq, Prod.mk.injEq] at h
    rw [← h.1, ← h.2]
    rfl
  | cons c rest ih =>
    intro sh bytes shF h
    simp only [encodeLoop] at h
    split at h
    · exact ih _ _ _ h
    · rename_i p hcp
      split at h
      · exact absurd h (by simp)
      · split at h
        · exact absurd h (by simp)
        · rename_i tail shF2 henc
          simp only [Except.ok.injEq, Prod.mk.injEq] at h
          obtain ⟨hb, hs⟩ := h
          subst hb
          subst hs
          have hv := H c p hcp
          have hdata : ∀ b : Bool,
              trackShift b (p.value :: tail) = trackShift b tail := by
            intro b
            simp only [trackShift, if_neg hv.1, if_neg hv.2]
          rw [trackShift_append, hdata]
          revert henc
          split_ifs with h1 h2 <;> intro henc <;>
            simpa [trackShift] using ih _ _ _ henc

/-- C4: the encoder starts in unshifted state, and whenever its core
pass over the characters ends still shifted it emits exactly one
trailing `0x8E`; as long as the table set never emits a data byte equal
to a shift control, the shift state tracked across the full output
returns to unshifted, so concatenating two independently encoded
outputs never leaves a dangling shift state at the boundary. -/
theorem c4_shift_bracketing (config : PetsciiConfig) (s bytes : List Nat)
    (shifted : Bool)
    (H : ∀ c p, charToPetscii config c = some p →
      p.value ≠ 14 ∧ p.value ≠ 142)
    (henc : encodeLoop config false s = .ok (bytes, shifted)) :
    unicode_to_petscii_bytes config s =
        .ok (bytes ++ if shifted then [142] else []) ∧
      trackShift false (bytes ++ if shifted then [142] else []) = false := by
  constructor
  · unfold unicode_to_petscii_bytes
    rw [henc]
  · rw [trackShift_append, encodeLoop_trackShift config H s false bytes shifted henc]
    cases shifted <;> rfl

/-- C4 witness: encoding the lowercase string `"a"` under the test
table set enters shifted state, emits the trailing `0x8E`, and the
tracked shift state over `[0x0E, 0x41, 0x8E]` returns to unshifted. -/
theorem c4_shift_bracketing_witness :
    encodeLoop testConfig false [97] = .ok ([14, 65], true) ∧
      unicode_to_petscii_bytes testConfig [97] = .ok ([14, 65, 142]) ∧
      trackShift false [14, 65, 142] = false := by
  have H : ∀ c p, charToPetscii testConfig c = some p →
      p.value ≠ 14 ∧ p.value ≠ 142 := by
    intro c p h
    by_cases h65 : c = 65
    · simp [charToPetscii, testConfig, emptyConfig, h65] at h
      simp [← h]
    · by_cases h97 : c = 97
      · simp [charToPetscii, testConfig, emptyConfig, h65, h97] at h
        simp [← h]
      · simp [charToPetscii, testConfig, emptyConfig, h65, h97] at h
  have h := c4_shift_bracketing testConfig [97] [14, 65] true H rfl
  exact ⟨rfl, by simpa using h.1, by simpa using h.2⟩

/-- The two malformed-table conditions named by the spec never arise
from this table set: every petscii-to-screen entry has a screen code of
at most 127 and a screen-set tag among 1, 2, 3. -/
def producesNeitherFatalCase (config : PetsciiConfig) : Prop :=
  (∀ c sc, config.c64_petscii_unshifted_codes_to_screen_codes c = some sc →
    sc.value ≤ 127 ∧ (sc.set = 1 ∨ sc.set = 2 ∨ sc.set = 3)) ∧
  (∀ c sc, config.c64_petscii_shifted_codes_to_screen_codes c = some sc →
    sc.value ≤ 127 ∧ (sc.set = 1 ∨ sc.set = 2 ∨ sc.set = 3))

/-- A table set whose petscii-to-screen entries are well formed in the
two spec-named senses, but whose set-1 screen-to-Unicode table maps
screen code 1 to the surrogate 0xD800. -/
def cfgSurrogate : PetsciiConfig :=
  { emptyConfig with
    c64_petscii_unshifted_codes_to_screen_codes :=
      fun c => if c = 65 then some ⟨1, 1⟩ else none
    c64_screen_codes_set_1_to_unicode_codes :=
      fun v => if v = 1 then some 55296 else none }

/-- Normalized codes are always at most 191, so the identity fallback
scalar is always a valid Unicode scalar. -/
lemma normalizeDuplicate_le (c : Nat) : normalizeDuplicate c ≤ 191 := by
  unfold normalizeDuplicate
  split_ifs <;> omega

/-- Values at most 191 are valid Unicode scalar values. -/
lemma isValidCharNat_of_le (n : Nat) (h : n ≤ 191) :
    isValidCharNat n = true := by
  unfold isValidCharNat
  simp only [Bool.or_eq_true, decide_eq_true_eq]
  left
  omega

/-- When the petscii-to-screen tables only produce screen codes at most
127 with set tags 1-3, and the screen-to-Unicode tables only produce
valid scalar values, the decode step never aborts. -/
lemma decodeStep_ok (config : PetsciiConfig)
    (Hp : producesNeitherFatalCase config)
    (H1 : ∀ v u, config.c64_screen_codes_set_1_to_unicode_codes v = some u →
      isValidCharNat (u % 4294967296) = true)
    (H2 : ∀ v u, config.c64_screen_codes_set_2_to_unicode_codes v = some u →
      isValidCharNat (u % 4294967296) = true)
    (H3 : ∀ v u, config.c64_screen_codes_set_3_to_unicode_codes v = some u →
      isValidCharNat (u % 4294967296) = true)
    (st : DecodeState) (c : Nat) :
    ∃ st2 out, decodeStep (some config) st c = .ok (st2, out) := by
  unfold decodeStep
  by_cases h14 : c = 14
  · exact ⟨_, _, by rw [if_pos h14]⟩
  rw [if_neg h14]
  by_cases h18 : c = 18
  · exact ⟨_, _, by rw [if_pos h18]⟩
  rw [if_neg h18]
  by_cases h142 : c = 142
  · exact ⟨_, _, by rw [if_pos h142]⟩
  rw [if_neg h142]
  by_cases h146 : c = 146
  · exact ⟨_, _, by rw [if_pos h146]⟩
  rw [if_neg h146]
  have Hsel : ∀ cc sc,
      (if !st.shifted then config.c64_petscii_unshifted_codes_to_screen_codes
       else config.c64_petscii_shifted_codes_to_screen_codes) cc = some sc →
        sc.value ≤ 127 ∧ (sc.set = 1 ∨ sc.set = 2 ∨ sc.set = 3) := by
    cases hs : st.shifted
    · simpa [hs] using Hp.1
    · simpa [hs] using Hp.2
  dsimp only
  cases hl : (if !st.shifted then config.c64_petscii_unshifted_codes_to_screen_codes
      else config.c64_petscii_shifted_codes_to_screen_codes)
        (normalizeDuplicate c) with
  | none => exact ⟨st, none, rfl⟩
  | some sc =>
    obtain ⟨hval, hset⟩ := Hsel _ _ hl
    dsimp only
    rw [if_neg (by omega)]
    have hfall : isValidCharNat (normalizeDuplicate c) = true :=
      isValidCharNat_of_le _ (normalizeDuplicate_le c)
    rcases hset with h1 | h2 | h3
    · rw [if_pos h1]
      dsimp only
      cases ht : config.c64_screen_codes_set_1_to_unicode_codes
          (if st.reversed = true then sc.value + 128 else sc.value) with
      | none =>
        refine ⟨st, some (normalizeDuplicate c), ?_⟩
        dsimp only
        rw [if_pos hfall]
      | some v =>
        refine ⟨st, some (v % 4294967296), ?_⟩
        dsimp only
        rw [if_pos (H1 _ _ ht)]
    · have hne : ¬ sc.set = 1 := by omega
      rw [if_neg hne, if_pos h2]
      dsimp only
      cases ht : config.c64_screen_codes_set_2_to_unicode_codes
          (if st.reversed = true then sc.value + 128 else sc.value) with
      | none =>
        refine ⟨st, some (normalizeDuplicate c), ?_⟩
        dsimp only
        rw [if_pos hfall]
      | some v =>
        refine ⟨st, some (v % 4294967296), ?_⟩
        dsimp only
        rw [if_pos (H2 _ _ ht)]
    · have hne : ¬ sc.set = 1 := by omega
      have hne2 : ¬ sc.set = 2 := by omega
      rw [if_neg hne, if_neg hne2, if_pos h3]
      dsimp only
      cases ht : config.c64_screen_codes_set_3_to_unicode_codes
          (if st.reversed = true then sc.value + 128 else sc.value) with
      | none =>
        refine ⟨st, some (normalizeDuplicate c), ?_⟩
        dsimp only
        rw [if_pos hfall]
      | some v =>
        refine ⟨st, some (v % 4294967296), ?_⟩
        dsimp only
        rw [if_pos (H3 _ _ ht)]

/-- Totality of the decode state machine over any byte list under the
well-formed-table hypotheses. -/
lemma decodeLoop_total (config : PetsciiConfig)
    (Hp : producesNeitherFatalCase config)
    (H1 : ∀ v u, config.c64_screen_codes_set_1_to_unicode_codes v = some u →
      isValidCharNat (u % 4294967296) = true)
    (H2 : ∀ v u, config.c64_screen_codes_set_2_to_unicode_codes v = some u →
      isValidCharNat (u % 4294967296) = true)
    (H3 : ∀ v u, config.c64_screen_codes_set_3_to_unicode_codes v = some u →
      isValidCharNat (u % 4294967296) = true)
    (bytes : List Nat) :
    ∀ st, ∃ out, decodeLoop (some config) st bytes = .ok out := by
  induction bytes with
  | nil => exact fun st => ⟨[], rfl⟩
  | cons c rest ih =>
    intro st
    obtain ⟨st2, o, hstep⟩ := decodeStep_ok config Hp H1 H2 H3 st c
    obtain ⟨tail, htail⟩ := ih st2
    exact ⟨o.elim tail (fun u => u :: tail), by
      simp only [decodeLoop, hstep, htail]⟩

/-- C5 counterexample: a table set producing neither of the two
spec-named fatal cases (all screen codes at most 127, all set tags
valid) under which decoding byte `0x41` still aborts, because the
set-1 screen-to-Unicode table resolves to the surrogate 0xD800 and
`char::from_u32(..).unwrap()` panics — a third fatal case the claim
omits. -/
theorem c5_counterexample :
    producesNeitherFatalCase cfgSurrogate ∧
      stringFrom ⟨1, [65], some cfgSurrogate, false⟩ = .error .invalidChar := by
  constructor
  · constructor
    · intro c sc h
      by_cases hc : c = 65
      · simp only [cfgSurrogate, emptyConfig, hc, if_pos] at h
        cases h
        exact ⟨by decide, Or.inl rfl⟩
      · simp [cfgSurrogate, emptyConfig, hc] at h
    · intro c sc h
      simp [cfgSurrogate, emptyConfig] at h
  · rfl

/-- C5 (amended): with a Table Set present, decode aborts fatally in
exactly three malformed-table cases — a looked-up screen code exceeding
127 before the reverse-video adjustment, a screen-set tag other than
1, 2, 3, or a screen-to-Unicode value that is not a valid Unicode
scalar after truncation to 32 bits — and for every buffer it completes
without aborting whenever the tables never produce any of the three. -/
theorem c5_decode_total_amended (config : PetsciiConfig)
    (Hp : producesNeitherFatalCase config)
    (H1 : ∀ v u, config.c64_screen_codes_set_1_to_unicode_codes v = some u →
      isValidCharNat (u % 4294967296) = true)
    (H2 : ∀ v u, config.c64_screen_codes_set_2_to_unicode_codes v = some u →
      isValidCharNat (u % 4294967296) = true)
    (H3 : ∀ v u, config.c64_screen_codes_set_3_to_unicode_codes v = some u →
      isValidCharNat (u % 4294967296) = true)
    (ps : PetsciiString) (hcm : ps.character_map = some config)
    (hlen : ps.len ≤ ps.data.length) :
    ∃ out, stringFrom ps = .ok out := by
  unfold stringFrom intoIterBytes
  rw [if_pos hlen, hcm]
  exact decodeLoop_total config Hp H1 H2 H3 _ _

/-- C5 witness: the amended totality theorem evaluated on the buffer
`[0x41]` under the test table set, whose entries satisfy all three
well-formedness hypotheses. -/
theorem c5_decode_total_amended_witness :
    producesNeitherFatalCase testConfig ∧
      ∃ out, stringFrom ⟨1, [65], some testConfig, false⟩ = .ok out := by
  have hp : producesNeitherFatalCase testConfig := by
    constructor
    · intro c sc h
      by_cases hc : c = 65
      · simp only [testConfig, emptyConfig, hc, if_pos] at h
        cases h
        exact ⟨by decide, Or.inl rfl⟩
      · simp [testConfig, emptyConfig, hc] at h
    · intro c sc h
      simp [testConfig, emptyConfig] at h
  have h1 : ∀ v u, testConfig.c64_screen_codes_set_1_to_unicode_codes v = some u →
      isValidCharNat (u % 4294967296) = true := by
    intro v u h
    by_cases hv : v = 1
    · simp only [testConfig, emptyConfig, hv, if_pos] at h
      cases h
      decide
    · simp [testConfig, emptyConfig, hv] at h
  have h2 : ∀ v u, testConfig.c64_screen_codes_set_2_to_unicode_codes v = some u →
      isValidCharNat (u % 4294967296) = true := by
    intro v u h
    simp [testConfig, emptyConfig] at h
  have h3 : ∀ v u, testConfig.c64_screen_codes_set_3_to_unicode_codes v = some u →
      isValidCharNat (u % 4294967296) = true := by
    intro v u h
    simp [testConfig, emptyConfig] at h
  exact ⟨hp, c5_decode_total_amended testConfig hp h1 h2 h3
    ⟨1, [65], some testConfig, false⟩ rfl (by decide)⟩

end ForbiddenBands
